import Mathlib

/-!
Shallow embedding of the NeuroSwarm-Bird simulation (`src/main.py`).

Vectors are modelled over the reals (`Vec2`), mirroring `pygame.math.Vector2`
arithmetic.  The mutable module-level tunables (`SEPARATION_WEIGHT`,
`MAX_SPEED`, ...) are modelled as a `Profile` value threaded through every
function that reads them; the main loop's global state is a `SimState`.
-/

noncomputable section

/-- A planar vector, mirroring `pygame.math.Vector2`. -/
@[ext]
structure Vec2 where
  x : ℝ
  y : ℝ

namespace Vec2

instance : Zero Vec2 := ⟨⟨0, 0⟩⟩
instance : Add Vec2 := ⟨fun a b => ⟨a.x + b.x, a.y + b.y⟩⟩
instance : Sub Vec2 := ⟨fun a b => ⟨a.x - b.x, a.y - b.y⟩⟩
instance : Neg Vec2 := ⟨fun a => ⟨-a.x, -a.y⟩⟩
instance : SMul ℝ Vec2 := ⟨fun c v => ⟨c * v.x, c * v.y⟩⟩
/-- Division of a vector by a scalar, as in `Vector2.__truediv__`. -/
instance : HDiv Vec2 ℝ Vec2 := ⟨fun v c => ⟨v.x / c, v.y / c⟩⟩

@[simp] lemma zero_x : (0 : Vec2).x = 0 := rfl
@[simp] lemma zero_y : (0 : Vec2).y = 0 := rfl
@[simp] lemma add_x (a b : Vec2) : (a + b).x = a.x + b.x := rfl
@[simp] lemma add_y (a b : Vec2) : (a + b).y = a.y + b.y := rfl
@[simp] lemma sub_x (a b : Vec2) : (a - b).x = a.x - b.x := rfl
@[simp] lemma sub_y (a b : Vec2) : (a - b).y = a.y - b.y := rfl
@[simp] lemma smul_x (c : ℝ) (v : Vec2) : (c • v).x = c * v.x := rfl
@[simp] lemma smul_y (c : ℝ) (v : Vec2) : (c • v).y = c * v.y := rfl
@[simp] lemma div_x (v : Vec2) (c : ℝ) : (v / c).x = v.x / c := rfl
@[simp] lemma div_y (v : Vec2) (c : ℝ) : (v / c).y = v.y / c := rfl

@[simp] lemma mk_x (a b : ℝ) : (Vec2.mk a b).x = a := rfl
@[simp] lemma mk_y (a b : ℝ) : (Vec2.mk a b).y = b := rfl

/-- `Vector2.length_squared()`. -/
def lengthSq (v : Vec2) : ℝ := v.x ^ 2 + v.y ^ 2

/-- `Vector2.length()`. -/
def length (v : Vec2) : ℝ := Real.sqrt v.lengthSq

/-- `Vector2.normalize()` (callers guard against the zero vector). -/
def normalize (v : Vec2) : Vec2 := v / v.length

/-- `Vector2.scale_to_length(L)` (callers guard against the zero vector). -/
def scaleTo (L : ℝ) (v : Vec2) : Vec2 := (L / v.length) • v

lemma lengthSq_nonneg (v : Vec2) : 0 ≤ v.lengthSq :=
  add_nonneg (sq_nonneg _) (sq_nonneg _)

lemma length_nonneg (v : Vec2) : 0 ≤ v.length := Real.sqrt_nonneg _

lemma lengthSq_eq_zero_iff (v : Vec2) : v.lengthSq = 0 ↔ v = 0 := by
  constructor
  · intro h
    rw [lengthSq] at h
    have hx : v.x ^ 2 = 0 := by nlinarith [sq_nonneg v.x, sq_nonneg v.y]
    have hy : v.y ^ 2 = 0 := by nlinarith [sq_nonneg v.x, sq_nonneg v.y]
    rw [pow_eq_zero_iff (two_ne_zero)] at hx hy
    ext <;> simp [hx, hy]
  · rintro rfl; simp [lengthSq]

lemma length_eq_zero_iff (v : Vec2) : v.length = 0 ↔ v = 0 := by
  rw [length, Real.sqrt_eq_zero (lengthSq_nonneg v), lengthSq_eq_zero_iff]

lemma length_pos_of_ne_zero {v : Vec2} (h : v ≠ 0) : 0 < v.length := by
  rcases lt_or_eq_of_le (length_nonneg v) with h1 | h1
  · exact h1
  · exact absurd ((length_eq_zero_iff v).1 h1.symm) h

lemma length_smul (c : ℝ) (v : Vec2) : (c • v).length = |c| * v.length := by
  have : (c • v).lengthSq = c ^ 2 * v.lengthSq := by
    simp [lengthSq]; ring
  rw [length, this, Real.sqrt_mul (sq_nonneg c), Real.sqrt_sq_eq_abs, ← length]

lemma scaleTo_length {v : Vec2} (hv : v ≠ 0) {L : ℝ} (hL : 0 ≤ L) :
    (scaleTo L v).length = L := by
  have hpos := length_pos_of_ne_zero hv
  rw [scaleTo, length_smul, abs_of_nonneg (div_nonneg hL hpos.le),
    div_mul_cancel₀ _ hpos.ne']

lemma div_eq_smul (v : Vec2) (c : ℝ) : v / c = c⁻¹ • v := by
  ext <;> simp [div_eq_inv_mul]

@[simp] lemma smul_zero_vec (c : ℝ) : c • (0 : Vec2) = 0 := by ext <;> simp

@[simp] lemma one_smul_vec (v : Vec2) : (1 : ℝ) • v = v := by ext <;> simp

@[simp] lemma length_zero : (0 : Vec2).length = 0 := by
  simp [length, lengthSq]

lemma ne_zero_of_length_lt {v : Vec2} {c : ℝ} (hc : 0 ≤ c)
    (h : c < v.length) : v ≠ 0 := by
  intro hv
  rw [hv, length_zero] at h
  exact absurd (hc.trans_lt h) (lt_irrefl 0)

instance : AddCommMonoid Vec2 where
  add_assoc := by intros a b c; ext <;> simp <;> ring
  zero_add := by intro a; ext <;> simp
  add_zero := by intro a; ext <;> simp
  add_comm := by intros a b; ext <;> simp <;> ring
  nsmul := nsmulRec

@[simp] lemma mk_add_mk (a b c d : ℝ) :
    (Vec2.mk a b) + (Vec2.mk c d) = Vec2.mk (a + c) (b + d) := rfl
@[simp] lemma mk_sub_mk (a b c d : ℝ) :
    (Vec2.mk a b) - (Vec2.mk c d) = Vec2.mk (a - c) (b - d) := rfl
@[simp] lemma smul_mk (r a b : ℝ) :
    r • (Vec2.mk a b) = Vec2.mk (r * a) (r * b) := rfl
@[simp] lemma mk_div (a b c : ℝ) :
    (Vec2.mk a b) / c = Vec2.mk (a / c) (b / c) := rfl

/-- Evaluate the length of a literal vector from a Pythagorean identity. -/
lemma length_mk {a b c : ℝ} (h : a ^ 2 + b ^ 2 = c ^ 2) (hc : 0 ≤ c) :
    (Vec2.mk a b).length = c := by
  rw [length, lengthSq, mk_x, mk_y, h, Real.sqrt_sq hc]

end Vec2

/-! ## Module constants (`src/main.py`, lines 31–48) -/

/-- `WIDTH` — window width. -/
def WIDTH : ℝ := 1200
/-- `HEIGHT` — window height. -/
def HEIGHT : ℝ := 800
/-- `PERCEPTION_RADIUS` — how far a boid can see. -/
def PERCEPTION_RADIUS : ℝ := 50

/-- One consistent assignment of the mutable module tunables
`SEPARATION_WEIGHT, ALIGNMENT_WEIGHT, COHESION_WEIGHT, MAX_SPEED, MAX_FORCE,
BOID_COLOR`. -/
structure Profile where
  sep_weight : ℝ
  align_weight : ℝ
  coh_weight : ℝ
  max_speed : ℝ
  max_force : ℝ
  color : ℕ × ℕ × ℕ

/-- The module-level initial values of the tunables (lines 36–46). -/
def defaultProfile : Profile :=
  ⟨1.5, 1.0, 1.0, 4.0, 0.1, (0, 255, 255)⟩

/-- The values installed by the `RELAXED` branch of the main loop
(lines 370–377). -/
def relaxedProfile : Profile :=
  ⟨1.0, 1.0, 1.0, 4.0, 0.1, (0, 255, 255)⟩

/-- The values installed by the `STRESSED` branch of the main loop
(lines 362–369). -/
def stressedProfile : Profile :=
  ⟨10.0, 0.2, -2.0, 10.0, 0.5, (255, 0, 0)⟩

/-! ## The Boid class -/

/-- A single boid: position, velocity, acceleration and the drawing trail
(a deque of at most 20 previous positions). -/
structure Boid where
  position : Vec2
  velocity : Vec2
  acceleration : Vec2
  trail : List (ℝ × ℝ)

/-- Placeholder boid used as the default for out-of-range list indexing. -/
def dummyBoid : Boid := ⟨0, 0, 0, []⟩

/-- Replace a boid's acceleration (the only field `Boid.flock` writes). -/
def withAcc (b : Boid) (a : Vec2) : Boid :=
  ⟨b.position, b.velocity, a, b.trail⟩

/-- Append to a `collections.deque` with `maxlen = cap`: the element is
appended on the right and the list is trimmed on the left to `cap`. -/
def pushCap (cap : ℕ) (buf : List ℝ) (x : ℝ) : List ℝ :=
  (buf ++ [x]).drop ((buf ++ [x]).length - cap)

/-- Append to the trail deque (`maxlen = 20`), same policy as `pushCap`. -/
def trailPush (t : List (ℝ × ℝ)) (q : ℝ × ℝ) : List (ℝ × ℝ) :=
  (t ++ [q]).drop ((t ++ [q]).length - 20)

/-- `Boid._steer_towards` (lines 174–182): desired direction scaled to max
speed, minus current velocity, clamped to max force. -/
def steer_towards (p : Profile) (vel target : Vec2) : Vec2 :=
  if target.lengthSq = 0 then 0
  else if p.max_force < (p.max_speed • target.normalize - vel).length
    then Vec2.scaleTo p.max_force (p.max_speed • target.normalize - vel)
    else p.max_speed • target.normalize - vel

/-- Loop body of `Boid.separation`: accumulate `diff / d` and the neighbour
count for every other boid with `d < PERCEPTION_RADIUS and d > 0`.  The
`other is not self` identity test of the source is modelled by calling the
rule with the agent list minus the agent itself. -/
def sepStep (selfPos : Vec2) (acc : Vec2 × ℕ) (o : Boid) : Vec2 × ℕ :=
  if (selfPos - o.position).length < PERCEPTION_RADIUS ∧
      0 < (selfPos - o.position).length
    then (acc.1 + (selfPos - o.position) / (selfPos - o.position).length,
          acc.2 + 1)
    else acc

/-- `Boid.separation` (lines 184–199). `others` is the agent list with
`self` removed. -/
def separation (p : Profile) (self : Boid) (others : List Boid) : Vec2 :=
  let r := others.foldl (sepStep self.position) (0, 0)
  if 0 < r.2 then steer_towards p self.velocity (r.1 / (r.2 : ℝ)) else r.1

/-- Loop body of `Boid.alignment`: accumulate neighbour velocities. -/
def aliStep (selfPos : Vec2) (acc : Vec2 × ℕ) (o : Boid) : Vec2 × ℕ :=
  if (selfPos - o.position).length < PERCEPTION_RADIUS
    then (acc.1 + o.velocity, acc.2 + 1)
    else acc

/-- `Boid.alignment` (lines 201–215). -/
def alignment (p : Profile) (self : Boid) (others : List Boid) : Vec2 :=
  let r := others.foldl (aliStep self.position) (0, 0)
  if 0 < r.2 then steer_towards p self.velocity (r.1 / (r.2 : ℝ)) else 0

/-- Loop body of `Boid.cohesion`: accumulate neighbour positions. -/
def cohStep (selfPos : Vec2) (acc : Vec2 × ℕ) (o : Boid) : Vec2 × ℕ :=
  if (selfPos - o.position).length < PERCEPTION_RADIUS
    then (acc.1 + o.position, acc.2 + 1)
    else acc

/-- `Boid.cohesion` (lines 217–232). -/
def cohesion (p : Profile) (self : Boid) (others : List Boid) : Vec2 :=
  let r := others.foldl (cohStep self.position) (0, 0)
  if 0 < r.2
    then steer_towards p self.velocity (r.1 / (r.2 : ℝ) - self.position)
    else 0

/-- `Boid.flock` (lines 236–242): the acceleration value written, namely
`sep * W_sep + ali * W_align + coh * W_coh`. -/
def flockForce (p : Profile) (self : Boid) (others : List Boid) : Vec2 :=
  p.sep_weight • separation p self others +
    p.align_weight • alignment p self others +
    p.coh_weight • cohesion p self others

/-- `Boid.update` (lines 244–253): trail append, velocity integration with
speed clamp, position integration, acceleration reset. -/
def update (p : Profile) (b : Boid) : Boid :=
  { position := b.position +
      (if p.max_speed < (b.velocity + b.acceleration).length
        then Vec2.scaleTo p.max_speed (b.velocity + b.acceleration)
        else b.velocity + b.acceleration),
    velocity :=
      (if p.max_speed < (b.velocity + b.acceleration).length
        then Vec2.scaleTo p.max_speed (b.velocity + b.acceleration)
        else b.velocity + b.acceleration),
    acceleration := 0,
    trail := trailPush b.trail (b.position.x, b.position.y) }

/-- `Boid.edges` (lines 255–272): toroidal wrap, clearing the trail when a
wrap happened. -/
def edges (b : Boid) : Boid :=
  { position :=
      ⟨if WIDTH < b.position.x then 0
        else if b.position.x < 0 then WIDTH else b.position.x,
       if HEIGHT < b.position.y then 0
        else if b.position.y < 0 then HEIGHT else b.position.y⟩,
    velocity := b.velocity,
    acceleration := b.acceleration,
    trail :=
      if WIDTH < b.position.x ∨ b.position.x < 0 ∨
          HEIGHT < b.position.y ∨ b.position.y < 0
        then [] else b.trail }

/-! ## The spectral classifier (`get_brain_state`, lines 112–150) -/

/-- The discrete physiological state produced by the classifier. -/
inductive BrainState where
  | RELAXED
  | STRESSED
  deriving DecidableEq

/-- The dictionary returned by `get_brain_state` / held in
`current_metrics`. -/
structure Metrics where
  state : BrainState
  alpha_power : ℝ
  beta_power : ℝ
  ratio : ℝ

/-- Entry `k` of `np.fft.rfft(data)`:
`X_k = Σ_n x_n · exp(-2πi·k·n / N)`. -/
def rfftVal (data : List ℝ) (k : ℕ) : ℂ :=
  (data.enum.map (fun q =>
    (q.2 : ℂ) *
      Complex.exp (-(2 * Real.pi * Complex.I * k * q.1 / data.length)))).sum

/-- Entry `k` of `psd = np.abs(fft_vals)**2`. -/
def psd (data : List ℝ) (k : ℕ) : ℝ := Complex.abs (rfftVal data k) ^ 2

/-- Entry `k` of `np.fft.rfftfreq(N, 1/rate)`, namely `k·rate/N`. -/
def rfftFreq (N rate k : ℕ) : ℝ := (k : ℝ) * rate / N

/-- Sum of `psd` entries whose frequency lies in `[lo, hi]`, over the
`N/2 + 1` entries `np.fft.rfft` produces. -/
def bandPower (data : List ℝ) (rate : ℕ) (lo hi : ℝ) : ℝ :=
  (((List.range (data.length / 2 + 1)).filter (fun k =>
      decide (lo ≤ rfftFreq data.length rate k ∧
        rfftFreq data.length rate k ≤ hi))).map (psd data)).sum

/-- `alpha_power`: band power over 8–12 Hz. -/
def alphaPower (data : List ℝ) (rate : ℕ) : ℝ := bandPower data rate 8 12

/-- `beta_power`: band power over 13–30 Hz. -/
def betaPower (data : List ℝ) (rate : ℕ) : ℝ := bandPower data rate 13 30

/-- `ratio`: `beta_power / alpha_power`, defined as `0` unless
`alpha_power > 0`. -/
def ratioVal (data : List ℝ) (rate : ℕ) : ℝ :=
  if 0 < alphaPower data rate then betaPower data rate / alphaPower data rate
  else 0

/-- `get_brain_state(data_buffer, rate)`: `None` when fewer than `rate`
samples are buffered, otherwise the state/power/ratio dictionary. -/
def get_brain_state (data_buffer : List ℝ) (rate : ℕ) : Option Metrics :=
  if data_buffer.length < rate then none
  else some
    { state := if 2 < ratioVal data_buffer rate then BrainState.STRESSED
        else BrainState.RELAXED,
      alpha_power := alphaPower data_buffer rate,
      beta_power := betaPower data_buffer rate,
      ratio := ratioVal data_buffer rate }

/-! ## The main loop (`main`, lines 293–398) -/

/-- The loop-carried state: the mutable tunables (as one `Profile`), the
`signal_buffer` deque, `current_metrics` and the boid list. -/
structure SimState where
  profile : Profile
  buffer : List ℝ
  metrics : Metrics
  boids : List Boid

/-- The initial `current_metrics` dictionary (lines 326–331). -/
def initMetrics : Metrics := ⟨BrainState.RELAXED, 0, 0, 0⟩

/-- The state right before the first loop iteration (lines 319–331). -/
def initState (boids : List Boid) : SimState :=
  ⟨defaultProfile, [], initMetrics, boids⟩

/-- The `if inlet:` block of one loop iteration (lines 342–377): drain the
available samples into the deque; when the deque holds 256 samples,
classify and install the profile selected by the classified state. -/
def lslUpdate (hasInlet : Bool) (samples : List ℝ) (st : SimState) :
    SimState :=
  if hasInlet then
    let buf := samples.foldl (pushCap 256) st.buffer
    if buf.length = 256 then
      let m := (get_brain_state buf 256).getD st.metrics
      ⟨if m.state = BrainState.STRESSED then stressedProfile
        else relaxedProfile, buf, m, st.boids⟩
    else ⟨st.profile, buf, st.metrics, st.boids⟩
  else st

/-- One step of the first boids loop (`boid.flock(boids)`, lines 380–381):
the boid at index `i` gets the acceleration computed from the current list
(the identity test `other is not self` removes index `i`). -/
def flockStepB (p : Profile) (l : List Boid) (i : ℕ) : List Boid :=
  l.set i (withAcc (l.getD i dummyBoid)
    (flockForce p (l.getD i dummyBoid) (l.eraseIdx i)))

/-- One step of the second boids loop (`boid.update(); boid.edges()`,
lines 383–385). -/
def updateStepB (p : Profile) (l : List Boid) (i : ℕ) : List Boid :=
  l.set i (edges (update p (l.getD i dummyBoid)))

/-- The first boids loop run in an arbitrary index order. -/
def seqFlockPass (p : Profile) (order : List ℕ) (l : List Boid) :
    List Boid :=
  order.foldl (flockStepB p) l

/-- The second boids loop run in an arbitrary index order. -/
def seqUpdatePass (p : Profile) (order : List ℕ) (l : List Boid) :
    List Boid :=
  order.foldl (updateStepB p) l

/-- Snapshot semantics of the first loop: every acceleration computed from
the start-of-tick list. -/
def snapFlockPass (p : Profile) (l : List Boid) : List Boid :=
  (List.range l.length).map (fun i =>
    withAcc (l.getD i dummyBoid)
      (flockForce p (l.getD i dummyBoid) (l.eraseIdx i)))

/-- Snapshot semantics of the second loop. -/
def snapUpdatePass (p : Profile) (l : List Boid) : List Boid :=
  l.map (fun b => edges (update p b))

/-- First-loop step over the pair (globals, boid list): the body reads the
tunables but never writes them. -/
def flockStepG (s : Profile × List Boid) (i : ℕ) : Profile × List Boid :=
  (s.1, flockStepB s.1 s.2 i)

/-- Second-loop step over the pair (globals, boid list). -/
def updateStepG (s : Profile × List Boid) (i : ℕ) : Profile × List Boid :=
  (s.1, updateStepB s.1 s.2 i)

/-- One full iteration of the main `while` loop (lines 334–396, drawing
omitted): LSL update, then the two boids loops in source order. -/
def frame (hasInlet : Bool) (samples : List ℝ) (st : SimState) : SimState :=
  let st1 := lslUpdate hasInlet samples st
  let s2 := (List.range st1.boids.length).foldl flockStepG
    (st1.profile, st1.boids)
  let s3 := (List.range s2.2.length).foldl updateStepG s2
  ⟨s3.1, st1.buffer, st1.metrics, s3.2⟩

/-! ## Spec-worded variants of the separation rule (for claim C1) -/

/-- The qualification test of the separation rule: distance strictly
between `0` and the perception radius. -/
def sepCond (sp : Vec2) (o : Boid) : Bool :=
  decide ((sp - o.position).length < PERCEPTION_RADIUS ∧
    0 < (sp - o.position).length)

/-- The neighbours that qualify for the separation rule. -/
def sepNeighbors (self : Boid) (others : List Boid) : List Boid :=
  others.filter (sepCond self.position)

/-- The separation rule as literally worded by the spec sentence under
scrutiny: each qualifying neighbour contributes the unit vector pointing
away from it, additionally scaled by `1/distance`; the average is fed to
the steer-towards rule. -/
def sepSpecClaim (p : Profile) (self : Boid) (others : List Boid) : Vec2 :=
  let ns := sepNeighbors self others
  if 0 < ns.length then
    steer_towards p self.velocity
      (((ns.map (fun o =>
        ((self.position - o.position) / (self.position - o.position).length)
          / (self.position - o.position).length)).sum) / (ns.length : ℝ))
  else 0

/-- The separation rule as the source computes it: each qualifying
neighbour contributes the unit vector pointing away from it (the
difference vector scaled by `1/distance`, with no further weighting). -/
def sepSpecAmended (p : Profile) (self : Boid) (others : List Boid) : Vec2 :=
  let ns := sepNeighbors self others
  if 0 < ns.length then
    steer_towards p self.velocity
      (((ns.map (fun o =>
        (self.position - o.position) / (self.position - o.position).length)).sum)
        / (ns.length : ℝ))
  else 0

/-! ## Snapshot semantics of the boids loops (claims C8 and C9) -/

/-- The kinematic projection of a boid: the only data the steering rules
read from other agents. -/
def pv (b : Boid) : Vec2 × Vec2 := (b.position, b.velocity)

/-- `sepStep` through the kinematic projection. -/
def sepStepPV (sp : Vec2) (acc : Vec2 × ℕ) (q : Vec2 × Vec2) : Vec2 × ℕ :=
  if (sp - q.1).length < PERCEPTION_RADIUS ∧ 0 < (sp - q.1).length
    then (acc.1 + (sp - q.1) / (sp - q.1).length, acc.2 + 1) else acc

/-- `aliStep` through the kinematic projection. -/
def aliStepPV (sp : Vec2) (acc : Vec2 × ℕ) (q : Vec2 × Vec2) : Vec2 × ℕ :=
  if (sp - q.1).length < PERCEPTION_RADIUS then (acc.1 + q.2, acc.2 + 1)
  else acc

/-- `cohStep` through the kinematic projection. -/
def cohStepPV (sp : Vec2) (acc : Vec2 × ℕ) (q : Vec2 × Vec2) : Vec2 × ℕ :=
  if (sp - q.1).length < PERCEPTION_RADIUS then (acc.1 + q.1, acc.2 + 1)
  else acc

/-- Two boid lists with the same positions and velocities fold the same
under any step that factors through the kinematic projection. -/
lemma foldl_congr_of_proj {γ δ : Type} (f : δ → Boid → δ) (g : δ → γ → δ)
    (proj : Boid → γ) (hf : ∀ a o, f a o = g a (proj o)) :
    ∀ {l₁ l₂ : List Boid}, l₁.map proj = l₂.map proj →
      ∀ acc, l₁.foldl f acc = l₂.foldl f acc := by
  intro l₁
  induction l₁ with
  | nil =>
      intro l₂ h acc
      have : l₂ = [] := List.map_eq_nil_iff.1 h.symm
      rw [this]
  | cons o t ih =>
      intro l₂ h acc
      cases l₂ with
      | nil => exact absurd h (by simp)
      | cons o2 t2 =>
          simp only [List.map_cons, List.cons.injEq] at h
          rw [List.foldl_cons, List.foldl_cons, hf, hf, h.1]
          exact ih h.2 _

/-- `Boid.separation` reads only positions and velocities. -/
lemma separation_congr (p : Profile) {s₁ s₂ : Boid} {l₁ l₂ : List Boid}
    (hp : s₁.position = s₂.position) (hv : s₁.velocity = s₂.velocity)
    (h : l₁.map pv = l₂.map pv) :
    separation p s₁ l₁ = separation p s₂ l₂ := by
  have hfold : l₁.foldl (sepStep s₁.position) (0, 0) =
      l₂.foldl (sepStep s₂.position) (0, 0) := by
    rw [hp]
    exact foldl_congr_of_proj (sepStep s₂.position) (sepStepPV s₂.position)
      pv (fun a o => rfl) h (0, 0)
  simp only [separation, hfold, hv]

/-- `Boid.alignment` reads only positions and velocities. -/
lemma alignment_congr (p : Profile) {s₁ s₂ : Boid} {l₁ l₂ : List Boid}
    (hp : s₁.position = s₂.position) (hv : s₁.velocity = s₂.velocity)
    (h : l₁.map pv = l₂.map pv) :
    alignment p s₁ l₁ = alignment p s₂ l₂ := by
  have hfold : l₁.foldl (aliStep s₁.position) (0, 0) =
      l₂.foldl (aliStep s₂.position) (0, 0) := by
    rw [hp]
    exact foldl_congr_of_proj (aliStep s₂.position) (aliStepPV s₂.position)
      pv (fun a o => rfl) h (0, 0)
  simp only [alignment, hfold, hv]

/-- `Boid.cohesion` reads only positions and velocities. -/
lemma cohesion_congr (p : Profile) {s₁ s₂ : Boid} {l₁ l₂ : List Boid}
    (hp : s₁.position = s₂.position) (hv : s₁.velocity = s₂.velocity)
    (h : l₁.map pv = l₂.map pv) :
    cohesion p s₁ l₁ = cohesion p s₂ l₂ := by
  have hfold : l₁.foldl (cohStep s₂.position) (0, 0) =
      l₂.foldl (cohStep s₂.position) (0, 0) :=
    foldl_congr_of_proj (cohStep s₂.position) (cohStepPV s₂.position)
      pv (fun a o => rfl) h (0, 0)
  simp only [cohesion, hp, hv, hfold]

/-- `Boid.flock` reads only positions and velocities of the agent set. -/
lemma flockForce_congr (p : Profile) {s₁ s₂ : Boid} {l₁ l₂ : List Boid}
    (hp : s₁.position = s₂.position) (hv : s₁.velocity = s₂.velocity)
    (h : l₁.map pv = l₂.map pv) :
    flockForce p s₁ l₁ = flockForce p s₂ l₂ := by
  rw [flockForce, flockForce, separation_congr p hp hv h,
    alignment_congr p hp hv h, cohesion_congr p hp hv h]

/-- Mapping commutes with removing an index. -/
lemma map_eraseIdx {α β : Type} (f : α → β) :
    ∀ (l : List α) (i : ℕ), (l.eraseIdx i).map f = (l.map f).eraseIdx i := by
  intro l
  induction l with
  | nil => intro i; rfl
  | cons a t ih =>
      intro i
      cases i with
      | zero => rfl
      | succ n => simp only [List.eraseIdx, List.map_cons, ih]

lemma getD_set_ne {α : Type} (l : List α) {i j : ℕ} (x d : α) (h : i ≠ j) :
    (l.set i x).getD j d = l.getD j d := by
  simp [List.getD_eq_getElem?_getD, List.getElem?_set_ne h]

lemma getD_set_self {α : Type} (l : List α) {i : ℕ} (x d : α)
    (h : i < l.length) : (l.set i x).getD i d = x := by
  simp [List.getD_eq_getElem?_getD, List.getElem?_set_self h]

/-- Writing back a boid that keeps its position and velocity does not
change the kinematic projection of the list. -/
lemma map_pv_set_withAcc (l : List Boid) (i : ℕ) (a : Vec2) :
    (l.set i (withAcc (l.getD i dummyBoid) a)).map pv = l.map pv := by
  apply List.ext_getElem
  · simp
  · intro j h1 h2
    rw [List.getElem_map, List.getElem_map]
    by_cases hij : i = j
    · subst hij
      have hi : i < l.length := by
        simpa using h2
      rw [List.getElem_set_self (by simpa using hi)]
      rw [← List.getD_eq_getElem l dummyBoid hi]
      rfl
    · rw [List.getElem_set_ne hij]

lemma flockStepB_length (p : Profile) (l : List Boid) (i : ℕ) :
    (flockStepB p l i).length = l.length := by
  simp [flockStepB]

lemma updateStepB_length (p : Profile) (l : List Boid) (i : ℕ) :
    (updateStepB p l i).length = l.length := by
  simp [updateStepB]

lemma seqFlockPass_length (p : Profile) (order : List ℕ) :
    ∀ l : List Boid, (seqFlockPass p order l).length = l.length := by
  induction order with
  | nil => intro l; rfl
  | cons i rest ih =>
      intro l
      rw [seqFlockPass, List.foldl_cons, ← seqFlockPass, ih,
        flockStepB_length]

lemma seqUpdatePass_length (p : Profile) (order : List ℕ) :
    ∀ l : List Boid, (seqUpdatePass p order l).length = l.length := by
  induction order with
  | nil => intro l; rfl
  | cons i rest ih =>
      intro l
      rw [seqUpdatePass, List.foldl_cons, ← seqUpdatePass, ih,
        updateStepB_length]

/-- Running the first boids loop sequentially over distinct in-range
indices computes, at every processed index, the flocking force of the
START state of the list: the in-place mutation never leaks into later
steering computations. -/
lemma seqFlockPass_getD (p : Profile) :
    ∀ (order : List ℕ) (l : List Boid), order.Nodup →
      (∀ i ∈ order, i < l.length) →
      ∀ j, (seqFlockPass p order l).getD j dummyBoid =
        if j ∈ order
          then withAcc (l.getD j dummyBoid)
            (flockForce p (l.getD j dummyBoid) (l.eraseIdx j))
          else l.getD j dummyBoid := by
  intro order
  induction order with
  | nil =>
      intro l _ _ j
      rw [if_neg (List.not_mem_nil j)]
      rfl
  | cons i rest ih =>
      intro l hnd hbnd j
      have hi : i < l.length := hbnd i (List.mem_cons_self i rest)
      have hnd' : rest.Nodup := (List.nodup_cons.1 hnd).2
      have hni : i ∉ rest := (List.nodup_cons.1 hnd).1
      have hpv : (flockStepB p l i).map pv = l.map pv :=
        map_pv_set_withAcc l i _
      have hbnd' : ∀ k ∈ rest, k < (flockStepB p l i).length := fun k hk =>
        (flockStepB_length p l i).symm ▸ hbnd k (List.mem_cons_of_mem i hk)
      have hstep : seqFlockPass p (i :: rest) l =
          seqFlockPass p rest (flockStepB p l i) := rfl
      rw [hstep, ih (flockStepB p l i) hnd' hbnd' j]
      by_cases hjr : j ∈ rest
      · rw [if_pos hjr, if_pos (List.mem_cons_of_mem i hjr)]
        have hji : i ≠ j := fun he => hni (he ▸ hjr)
        have hg : (flockStepB p l i).getD j dummyBoid =
            l.getD j dummyBoid := getD_set_ne l _ _ hji
        rw [hg]
        have hpve : ((flockStepB p l i).eraseIdx j).map pv =
            (l.eraseIdx j).map pv := by
          rw [map_eraseIdx, map_eraseIdx, hpv]
        exact congrArg (withAcc _) (flockForce_congr p rfl rfl hpve)
      · rw [if_neg hjr]
        by_cases hji : j = i
        · subst hji
          rw [if_pos (List.mem_cons_self j rest), flockStepB]
          exact getD_set_self l _ _ hi
        · rw [if_neg (by
            intro hmem
            rcases List.mem_cons.1 hmem with he | hr
            · exact hji he
            · exact hjr hr)]
          exact getD_set_ne l _ _ (fun he => hji he.symm)

/-- Same for the second boids loop: each step touches only its own index,
so processing order is irrelevant. -/
lemma seqUpdatePass_getD (p : Profile) :
    ∀ (order : List ℕ) (l : List Boid), order.Nodup →
      (∀ i ∈ order, i < l.length) →
      ∀ j, (seqUpdatePass p order l).getD j dummyBoid =
        if j ∈ order
          then edges (update p (l.getD j dummyBoid))
          else l.getD j dummyBoid := by
  intro order
  induction order with
  | nil =>
      intro l _ _ j
      rw [if_neg (List.not_mem_nil j)]
      rfl
  | cons i rest ih =>
      intro l hnd hbnd j
      have hi : i < l.length := hbnd i (List.mem_cons_self i rest)
      have hnd' : rest.Nodup := (List.nodup_cons.1 hnd).2
      have hni : i ∉ rest := (List.nodup_cons.1 hnd).1
      have hbnd' : ∀ k ∈ rest, k < (updateStepB p l i).length := fun k hk =>
        (updateStepB_length p l i).symm ▸ hbnd k (List.mem_cons_of_mem i hk)
      have hstep : seqUpdatePass p (i :: rest) l =
          seqUpdatePass p rest (updateStepB p l i) := rfl
      rw [hstep, ih (updateStepB p l i) hnd' hbnd' j]
      by_cases hjr : j ∈ rest
      · rw [if_pos hjr, if_pos (List.mem_cons_of_mem i hjr)]
        have hji : i ≠ j := fun he => hni (he ▸ hjr)
        rw [updateStepB, getD_set_ne l _ _ hji]
      · rw [if_neg hjr]
        by_cases hji : j = i
        · subst hji
          rw [if_pos (List.mem_cons_self j rest), updateStepB]
          exact getD_set_self l _ _ hi
        · rw [if_neg (by
            intro hmem
            rcases List.mem_cons.1 hmem with he | hr
            · exact hji he
            · exact hjr hr)]
          exact getD_set_ne l _ _ (fun he => hji he.symm)

lemma getD_map_range {α : Type} (f : ℕ → α) (n j : ℕ) (d : α) (h : j < n) :
    ((List.range n).map f).getD j d = f j := by
  rw [List.getD_eq_getElem _ d (by simpa using h), List.getElem_map,
    List.getElem_range]

lemma getD_map_boid (g : Boid → Boid) (l : List Boid) (j : ℕ)
    (h : j < l.length) :
    (l.map g).getD j dummyBoid = g (l.getD j dummyBoid) := by
  rw [List.getD_eq_getElem _ dummyBoid (by simpa using h),
    List.getElem_map, List.getD_eq_getElem l dummyBoid h]

/-- Any order that is a permutation of all indices makes the sequential
first loop agree with the snapshot semantics. -/
lemma seqFlockPass_eq_snap (p : Profile) (order : List ℕ) (l : List Boid)
    (hperm : order.Perm (List.range l.length)) :
    seqFlockPass p order l = snapFlockPass p l := by
  have hnd : order.Nodup := hperm.nodup_iff.2 (List.nodup_range l.length)
  have hmem : ∀ j, j ∈ order ↔ j < l.length := fun j => by
    rw [hperm.mem_iff, List.mem_range]
  have hval := seqFlockPass_getD p order l hnd (fun i hi => (hmem i).1 hi)
  apply List.ext_getElem
  · rw [seqFlockPass_length]
    simp [snapFlockPass]
  · intro j h1 h2
    have hj : j < l.length := by
      rw [seqFlockPass_length] at h1
      exact h1
    rw [← List.getD_eq_getElem _ dummyBoid h1,
      ← List.getD_eq_getElem _ dummyBoid h2, hval j,
      if_pos ((hmem j).2 hj), snapFlockPass, getD_map_range _ _ _ _ hj]

/-- Any order that is a permutation of all indices makes the sequential
second loop agree with the snapshot semantics. -/
lemma seqUpdatePass_eq_snap (p : Profile) (order : List ℕ) (l : List Boid)
    (hperm : order.Perm (List.range l.length)) :
    seqUpdatePass p order l = snapUpdatePass p l := by
  have hnd : order.Nodup := hperm.nodup_iff.2 (List.nodup_range l.length)
  have hmem : ∀ j, j ∈ order ↔ j < l.length := fun j => by
    rw [hperm.mem_iff, List.mem_range]
  have hval := seqUpdatePass_getD p order l hnd (fun i hi => (hmem i).1 hi)
  apply List.ext_getElem
  · rw [seqUpdatePass_length]
    simp [snapUpdatePass]
  · intro j h1 h2
    have hj : j < l.length := by
      rw [seqUpdatePass_length] at h1
      exact h1
    rw [← List.getD_eq_getElem _ dummyBoid h1,
      ← List.getD_eq_getElem _ dummyBoid h2, hval j,
      if_pos ((hmem j).2 hj), snapUpdatePass, getD_map_boid _ l j hj]

/-! ## Claim C8 — snapshot semantics and order independence -/

/-- **C8.** One tick of the two boids loops, run sequentially in any
iteration orders, equals the snapshot semantics in which every steering
force is computed from the start-of-tick positions and velocities; hence
the per-tick result is independent of the iteration order. -/
theorem tick_order_independent (p : Profile) (l : List Boid)
    (o₁ o₂ : List ℕ) (h₁ : o₁.Perm (List.range l.length))
    (h₂ : o₂.Perm (List.range l.length)) :
    seqUpdatePass p o₂ (seqFlockPass p o₁ l) =
      snapUpdatePass p (snapFlockPass p l) := by
  rw [seqFlockPass_eq_snap p o₁ l h₁]
  apply seqUpdatePass_eq_snap
  have hlen : (snapFlockPass p l).length = l.length := by
    simp [snapFlockPass]
  rw [hlen]
  exact h₂

/-- Concrete instance of `tick_order_independent`: two agents processed in
reversed order. -/
theorem tick_order_independent_witness :
    ([1, 0].Perm
      (List.range ([dummyBoid, dummyBoid] : List Boid).length)) ∧
    seqUpdatePass defaultProfile [1, 0]
        (seqFlockPass defaultProfile [1, 0] [dummyBoid, dummyBoid]) =
      snapUpdatePass defaultProfile
        (snapFlockPass defaultProfile [dummyBoid, dummyBoid]) :=
  ⟨List.Perm.swap 0 1 [],
    tick_order_independent defaultProfile [dummyBoid, dummyBoid] [1, 0]
      [1, 0] (List.Perm.swap 0 1 []) (List.Perm.swap 0 1 [])⟩

/-! ## Claim C9 — one profile per tick -/

lemma foldl_flockStepG (order : List ℕ) :
    ∀ (p : Profile) (l : List Boid),
      order.foldl flockStepG (p, l) = (p, seqFlockPass p order l) := by
  induction order with
  | nil => intro p l; rfl
  | cons i rest ih =>
      intro p l
      rw [List.foldl_cons]
      exact ih p (flockStepB p l i)

lemma foldl_updateStepG (order : List ℕ) :
    ∀ (p : Profile) (l : List Boid),
      order.foldl updateStepG (p, l) = (p, seqUpdatePass p order l) := by
  induction order with
  | nil => intro p l; rfl
  | cons i rest ih =>
      intro p l
      rw [List.foldl_cons]
      exact ih p (updateStepB p l i)

/-- One frame in full: the LSL block runs first, and the two boids loops
use the profile it leaves behind, never writing it. -/
lemma frame_eq_snapshot (hasInlet : Bool) (samples : List ℝ)
    (st : SimState) :
    frame hasInlet samples st =
      ⟨(lslUpdate hasInlet samples st).profile,
       (lslUpdate hasInlet samples st).buffer,
       (lslUpdate hasInlet samples st).metrics,
       snapUpdatePass (lslUpdate hasInlet samples st).profile
         (snapFlockPass (lslUpdate hasInlet samples st).profile
           (lslUpdate hasInlet samples st).boids)⟩ := by
  simp only [frame]
  rw [foldl_flockStepG]
  dsimp only
  rw [foldl_updateStepG]
  dsimp only
  rw [seqFlockPass_eq_snap _ _ _ (List.Perm.refl _)]
  rw [seqUpdatePass_eq_snap _ _ _ (List.Perm.refl _)]

/-- **C9.** Within one frame every steering and integration computation
uses exactly one profile — the one the LSL block leaves active — and when
the inlet is present and the drained buffer is full, that profile is the
one mapped from this frame's classification result. -/
theorem frame_single_profile (hasInlet : Bool) (samples : List ℝ)
    (st : SimState) :
    (frame hasInlet samples st).profile =
      (lslUpdate hasInlet samples st).profile ∧
    (frame hasInlet samples st).boids =
      snapUpdatePass (lslUpdate hasInlet samples st).profile
        (snapFlockPass (lslUpdate hasInlet samples st).profile
          (lslUpdate hasInlet samples st).boids) ∧
    (hasInlet = true →
      (samples.foldl (pushCap 256) st.buffer).length = 256 →
      (lslUpdate hasInlet samples st).profile =
        (if ((get_brain_state (samples.foldl (pushCap 256) st.buffer)
            256).getD st.metrics).state = BrainState.STRESSED
          then stressedProfile else relaxedProfile)) := by
  refine ⟨?_, ?_, ?_⟩
  · rw [frame_eq_snapshot]
  · rw [frame_eq_snapshot]
  · intro h1 h2
    subst h1
    have hLU : lslUpdate true samples st =
        (if (samples.foldl (pushCap 256) st.buffer).length = 256 then
          (⟨if ((get_brain_state (samples.foldl (pushCap 256) st.buffer)
              256).getD st.metrics).state = BrainState.STRESSED
            then stressedProfile else relaxedProfile,
            samples.foldl (pushCap 256) st.buffer,
            (get_brain_state (samples.foldl (pushCap 256) st.buffer)
              256).getD st.metrics,
            st.boids⟩ : SimState)
        else ⟨st.profile, samples.foldl (pushCap 256) st.buffer,
          st.metrics, st.boids⟩) := rfl
    rw [hLU, if_pos h2]

/-- Concrete instance of `frame_single_profile`. -/
theorem frame_single_profile_witness :
    (frame true [] (initState [])).profile =
      (lslUpdate true [] (initState [])).profile ∧
    (frame true [] (initState [])).boids =
      snapUpdatePass (lslUpdate true [] (initState [])).profile
        (snapFlockPass (lslUpdate true [] (initState [])).profile
          (lslUpdate true [] (initState [])).boids) ∧
    (true = true →
      (([] : List ℝ).foldl (pushCap 256) (initState []).buffer).length =
        256 →
      (lslUpdate true [] (initState [])).profile =
        (if ((get_brain_state
            (([] : List ℝ).foldl (pushCap 256) (initState []).buffer)
            256).getD (initState []).metrics).state = BrainState.STRESSED
          then stressedProfile else relaxedProfile)) :=
  frame_single_profile true [] (initState [])

/-! ## Claim C4 — behaviour without a discovered stream -/

/-- Without an inlet a frame does not change the active tunables. -/
lemma frame_no_inlet_profile (samples : List ℝ) (st : SimState) :
    (frame false samples st).profile = st.profile := by
  rw [frame_eq_snapshot]
  rfl

/-- **C4 (amended).** When no EEG stream is discovered the simulation
keeps running with the module-default tunables: separation weight 1.5,
alignment 1.0, cohesion 1.0, max speed 4.0, max force 0.1, colour cyan.
These coincide with the mapper's `RELAXED` profile except that the
separation weight is 1.5 rather than 1.0, so the active profile is not the
`RELAXED` profile. -/
theorem no_inlet_keeps_default_profile (sampless : List (List ℝ))
    (boids : List Boid) :
    (sampless.foldl (fun st s => frame false s st)
        (initState boids)).profile = defaultProfile ∧
    defaultProfile.sep_weight = 1.5 ∧
    defaultProfile.align_weight = 1 ∧
    defaultProfile.coh_weight = 1 ∧
    defaultProfile.max_speed = 4 ∧
    defaultProfile.max_force = 0.1 ∧
    defaultProfile.color = (0, 255, 255) ∧
    relaxedProfile.sep_weight = 1 ∧
    defaultProfile ≠ relaxedProfile := by
  have hfold : ∀ (ls : List (List ℝ)) (st : SimState),
      (ls.foldl (fun st s => frame false s st) st).profile = st.profile := by
    intro ls
    induction ls with
    | nil => intro st; rfl
    | cons s rest ih =>
        intro st
        rw [List.foldl_cons, ih, frame_no_inlet_profile]
  refine ⟨hfold sampless (initState boids), by norm_num [defaultProfile],
    by norm_num [defaultProfile], by norm_num [defaultProfile],
    by norm_num [defaultProfile], by norm_num [defaultProfile],
    by norm_num [defaultProfile], by norm_num [relaxedProfile], ?_⟩
  intro he
  have hsep := congrArg Profile.sep_weight he
  norm_num [defaultProfile, relaxedProfile] at hsep

/-- **C4 (counterexample).** After a frame with no discovered stream the
active separation weight is the module default 1.5, so the active
parameters are not the mapper's `RELAXED` profile (separation weight
1.0). -/
theorem no_inlet_profile_ne_relaxed :
    (frame false [] (initState [])).profile.sep_weight = 1.5 ∧
    relaxedProfile.sep_weight = 1 ∧
    (frame false [] (initState [])).profile ≠ relaxedProfile := by
  have h : (frame false [] (initState [])).profile = defaultProfile :=
    frame_no_inlet_profile [] (initState [])
  refine ⟨by rw [h]; norm_num [defaultProfile],
    by norm_num [relaxedProfile], ?_⟩
  rw [h]
  intro he
  have hsep := congrArg Profile.sep_weight he
  norm_num [defaultProfile, relaxedProfile] at hsep

/-! ## Claim C1 — the separation rule -/

/-- `sepCond` decides exactly the distance test of the separation loop. -/
lemma sepCond_eq_true (sp : Vec2) (o : Boid) :
    sepCond sp o = true ↔
      ((sp - o.position).length < PERCEPTION_RADIUS ∧
        0 < (sp - o.position).length) := by
  rw [sepCond, decide_eq_true_eq]

/-- Characterization of the separation loop: the accumulator collects the
sum of `diff / d` over qualifying neighbours, and the neighbour count. -/
lemma sepStep_foldl (sp : Vec2) (others : List Boid) :
    ∀ acc : Vec2 × ℕ,
      others.foldl (sepStep sp) acc =
        (acc.1 + ((others.filter (sepCond sp)).map (fun o =>
            (sp - o.position) / (sp - o.position).length)).sum,
         acc.2 + (others.filter (sepCond sp)).length) := by
  induction others with
  | nil => intro acc; simp
  | cons o rest ih =>
      intro acc
      rw [List.foldl_cons]
      by_cases hc : (sp - o.position).length < PERCEPTION_RADIUS ∧
          0 < (sp - o.position).length
      · rw [List.filter_cons_of_pos ((sepCond_eq_true sp o).2 hc), ih]
        simp only [sepStep, if_pos hc, List.map_cons, List.sum_cons]
        refine Prod.ext ?_ ?_
        · simp only [add_assoc]
        · simp only [List.length_cons]
          omega
      · rw [List.filter_cons_of_neg
          (fun hh => hc ((sepCond_eq_true sp o).1 hh)), ih]
        simp only [sepStep, if_neg hc]

/-- **C1 (amended).** `Boid.separation` accumulates, over each neighbour
within the perception radius (excluding self and neighbours at distance
zero), the unit vector pointing away from that neighbour — the difference
vector scaled by `1/distance`, with no additional `1/distance` weighting —
averages this sum over the neighbour count, and passes the average through
the steer-towards rule; with no qualifying neighbour it returns zero. -/
theorem separation_eq_unit_average (p : Profile) (self : Boid)
    (others : List Boid) :
    separation p self others = sepSpecAmended p self others := by
  rw [separation, sepSpecAmended, sepNeighbors,
    sepStep_foldl self.position others (0, 0)]
  simp only [zero_add]
  by_cases hl : 0 < (others.filter (sepCond self.position)).length
  · rw [if_pos hl, if_pos hl]
  · rw [if_neg hl, if_neg hl]
    have : others.filter (sepCond self.position) = [] :=
      List.length_eq_zero.1 (by omega)
    rw [this, List.map_nil, List.sum_nil]

/-- The agent at the origin used by the C1 counterexample. -/
def cexSelf : Boid := ⟨⟨0, 0⟩, ⟨0, 0⟩, ⟨0, 0⟩, []⟩

/-- Three neighbours on the x-axis: one at distance 1 to the right, two at
distance 2 to the left. -/
def cexOthers : List Boid :=
  [⟨⟨1, 0⟩, ⟨0, 0⟩, ⟨0, 0⟩, []⟩,
   ⟨⟨-2, 0⟩, ⟨0, 0⟩, ⟨0, 0⟩, []⟩,
   ⟨⟨-2, 0⟩, ⟨0, 0⟩, ⟨0, 0⟩, []⟩]

lemma cex_diff_right : cexSelf.position - (Vec2.mk 1 0) = ⟨-1, 0⟩ := by
  simp only [cexSelf]
  ext <;> norm_num

lemma cex_diff_left : cexSelf.position - (Vec2.mk (-2) 0) = ⟨2, 0⟩ := by
  simp only [cexSelf]
  ext <;> norm_num

lemma cex_len_m1 : (Vec2.mk (-1) 0).length = 1 :=
  Vec2.length_mk (by norm_num) (by norm_num)

lemma cex_len_p2 : (Vec2.mk 2 0).length = 2 :=
  Vec2.length_mk (by norm_num) (by norm_num)

lemma cex_len_right : (cexSelf.position - (Vec2.mk 1 0)).length = 1 := by
  rw [cex_diff_right, cex_len_m1]

lemma cex_len_left : (cexSelf.position - (Vec2.mk (-2) 0)).length = 2 := by
  rw [cex_diff_left, cex_len_p2]

/-- Evaluation of the steer-towards rule on the target the separation loop
produces at the counterexample input. -/
lemma cex_steer :
    steer_towards defaultProfile cexSelf.velocity
      ((Vec2.mk 1 0) / ((3 : ℕ) : ℝ)) = ⟨1 / 10, 0⟩ := by
  have htgt : (Vec2.mk 1 0) / ((3 : ℕ) : ℝ) = ⟨1 / 3, 0⟩ := by
    ext <;> norm_num
  have hlen : (Vec2.mk (1 / 3 : ℝ) 0).length = 1 / 3 :=
    Vec2.length_mk (by norm_num) (by norm_num)
  have hnorm : (Vec2.mk (1 / 3 : ℝ) 0).normalize = ⟨1, 0⟩ := by
    rw [Vec2.normalize, hlen]
    ext <;> norm_num
  have hdes : defaultProfile.max_speed •
      (Vec2.mk (1 / 3 : ℝ) 0).normalize - cexSelf.velocity = ⟨4, 0⟩ := by
    rw [hnorm]
    simp only [defaultProfile, cexSelf]
    ext <;> norm_num
  have hdlen : (Vec2.mk (4 : ℝ) 0).length = 4 :=
    Vec2.length_mk (by norm_num) (by norm_num)
  rw [htgt, steer_towards,
    if_neg (by rw [Vec2.lengthSq]; norm_num), hdes, hdlen,
    if_pos (by norm_num [defaultProfile]), Vec2.scaleTo, hdlen]
  simp only [defaultProfile]
  ext <;> norm_num

/-- Value of `Boid.separation` at the counterexample input. -/
lemma cex_separation_val :
    separation defaultProfile cexSelf cexOthers = ⟨1 / 10, 0⟩ := by
  have s1 : sepStep cexSelf.position ((0 : Vec2), (0 : ℕ))
      ⟨⟨1, 0⟩, ⟨0, 0⟩, ⟨0, 0⟩, []⟩ = (⟨-1, 0⟩, 1) := by
    simp only [sepStep, cex_len_right]
    rw [if_pos (by norm_num [PERCEPTION_RADIUS])]
    rw [cex_diff_right]
    refine Prod.ext ?_ rfl
    simp only []
    ext <;> norm_num
  have s2 : sepStep cexSelf.position ((Vec2.mk (-1) 0), (1 : ℕ))
      ⟨⟨-2, 0⟩, ⟨0, 0⟩, ⟨0, 0⟩, []⟩ = (⟨0, 0⟩, 2) := by
    simp only [sepStep, cex_len_left]
    rw [if_pos (by norm_num [PERCEPTION_RADIUS])]
    rw [cex_diff_left]
    refine Prod.ext ?_ rfl
    simp only []
    ext <;> norm_num
  have s3 : sepStep cexSelf.position ((Vec2.mk 0 0), (2 : ℕ))
      ⟨⟨-2, 0⟩, ⟨0, 0⟩, ⟨0, 0⟩, []⟩ = (⟨1, 0⟩, 3) := by
    simp only [sepStep, cex_len_left]
    rw [if_pos (by norm_num [PERCEPTION_RADIUS])]
    rw [cex_diff_left]
    refine Prod.ext ?_ rfl
    simp only []
    ext <;> norm_num
  have hfold : cexOthers.foldl (sepStep cexSelf.position)
      ((0 : Vec2), (0 : ℕ)) = (⟨1, 0⟩, 3) := by
    simp only [cexOthers, List.foldl_cons, List.foldl_nil, s1, s2, s3]
  rw [separation, hfold]
  rw [if_pos (by norm_num)]
  exact cex_steer

/-- Value of the literally-worded spec separation rule at the
counterexample input: the inverse-distance-weighted contributions cancel,
so the rule returns zero. -/
lemma cex_sepSpecClaim_val :
    sepSpecClaim defaultProfile cexSelf cexOthers = 0 := by
  have hns : sepNeighbors cexSelf cexOthers = cexOthers := by
    rw [sepNeighbors, cexOthers]
    rw [List.filter_cons_of_pos ((sepCond_eq_true cexSelf.position _).2
      (by rw [cex_len_right]; norm_num [PERCEPTION_RADIUS]))]
    rw [List.filter_cons_of_pos ((sepCond_eq_true cexSelf.position _).2
      (by rw [cex_len_left]; norm_num [PERCEPTION_RADIUS]))]
    rw [List.filter_cons_of_pos ((sepCond_eq_true cexSelf.position _).2
      (by rw [cex_len_left]; norm_num [PERCEPTION_RADIUS]))]
    rw [List.filter_nil]
  have hsum : (cexOthers.map (fun o =>
      ((cexSelf.position - o.position) /
        (cexSelf.position - o.position).length) /
        (cexSelf.position - o.position).length)).sum = (0 : Vec2) := by
    simp only [cexOthers, List.map_cons, List.map_nil, List.sum_cons,
      List.sum_nil, cex_diff_right, cex_diff_left, cex_len_right,
      cex_len_left, cex_len_m1, cex_len_p2]
    ext <;> norm_num
  simp only [sepSpecClaim, hns]
  rw [if_pos (by norm_num [cexOthers]), hsum]
  rw [show ((0 : Vec2)) / ((cexOthers.length : ℕ) : ℝ) = (0 : Vec2) by
    ext <;> norm_num]
  rw [steer_towards, if_pos (by rw [Vec2.lengthSq]; norm_num)]

/-- **C1 (counterexample).** At a concrete input (self at the origin, one
neighbour at distance 1, two at distance 2) the source's separation rule
returns `(0.1, 0)` while the claimed inverse-distance-weighted rule
returns the zero vector: the claim's formula disagrees with the code. -/
theorem separation_claim_counterexample :
    separation defaultProfile cexSelf cexOthers = ⟨1 / 10, 0⟩ ∧
    sepSpecClaim defaultProfile cexSelf cexOthers = 0 ∧
    separation defaultProfile cexSelf cexOthers ≠
      sepSpecClaim defaultProfile cexSelf cexOthers := by
  refine ⟨cex_separation_val, cex_sepSpecClaim_val, ?_⟩
  rw [cex_separation_val, cex_sepSpecClaim_val]
  intro h
  have := congrArg Vec2.x h
  simp only [Vec2.mk_x, Vec2.zero_x] at this
  norm_num at this

/-! ## Claim C2 — speed clamp in the integration step -/

/-- **C2.** For every agent, after the integration step `Boid.update` the
velocity magnitude is at most the active profile's max speed; when the
pre-clamp velocity `velocity + acceleration` exceeds max speed it is
rescaled to exactly max speed; the position advances by the clamped
velocity and the acceleration is reset to zero. -/
theorem update_speed_clamped (p : Profile) (b : Boid)
    (h : 0 ≤ p.max_speed) :
    ((update p b).velocity).length ≤ p.max_speed ∧
    (p.max_speed < (b.velocity + b.acceleration).length →
      ((update p b).velocity).length = p.max_speed) ∧
    (update p b).position = b.position + (update p b).velocity ∧
    (update p b).acceleration = 0 := by
  by_cases hc : p.max_speed < (b.velocity + b.acceleration).length
  · have hne : b.velocity + b.acceleration ≠ 0 :=
      Vec2.ne_zero_of_length_lt h hc
    have hL : ((update p b).velocity).length = p.max_speed := by
      simp only [update, if_pos hc]
      exact Vec2.scaleTo_length hne h
    exact ⟨hL.le, fun _ => hL, by simp only [update, if_pos hc], rfl⟩
  · have hv : (update p b).velocity = b.velocity + b.acceleration := by
      simp only [update, if_neg hc]
    refine ⟨?_, fun hlt => absurd hlt hc, by simp only [update, if_neg hc],
      rfl⟩
    rw [hv]
    exact not_lt.1 hc

/-- Concrete instance of `update_speed_clamped` with its hypothesis
discharged. -/
theorem update_speed_clamped_witness :
    (0 : ℝ) ≤ defaultProfile.max_speed ∧
    (((update defaultProfile dummyBoid).velocity).length ≤
        defaultProfile.max_speed ∧
      (defaultProfile.max_speed <
          (dummyBoid.velocity + dummyBoid.acceleration).length →
        ((update defaultProfile dummyBoid).velocity).length =
          defaultProfile.max_speed) ∧
      (update defaultProfile dummyBoid).position =
        dummyBoid.position + (update defaultProfile dummyBoid).velocity ∧
      (update defaultProfile dummyBoid).acceleration = 0) :=
  ⟨by norm_num [defaultProfile],
    update_speed_clamped defaultProfile dummyBoid
      (by norm_num [defaultProfile])⟩

/-! ## Claim C3 — the steer-towards rule -/

/-- **C3.** The steer-towards rule returns zero on a zero target; on a
nonzero target it returns the target rescaled to max speed minus the
current velocity, clamped in magnitude to the profile's max force with
direction preserved (a positive scalar multiple); every returned force has
magnitude at most max force. -/
theorem steer_towards_spec (p : Profile) (vel target : Vec2)
    (h : 0 ≤ p.max_force) :
    (steer_towards p vel target).length ≤ p.max_force ∧
    (target = 0 → steer_towards p vel target = 0) ∧
    (target ≠ 0 →
      ∃ c : ℝ, 0 ≤ c ∧
        steer_towards p vel target =
          c • (p.max_speed • target.normalize - vel) ∧
        (0 < p.max_force → 0 < c) ∧
        ((p.max_speed • target.normalize - vel).length ≤ p.max_force →
          steer_towards p vel target =
            p.max_speed • target.normalize - vel) ∧
        (p.max_force < (p.max_speed • target.normalize - vel).length →
          (steer_towards p vel target).length = p.max_force)) := by
  by_cases h0 : target.lengthSq = 0
  · have ht : target = 0 := (Vec2.lengthSq_eq_zero_iff target).1 h0
    have hz : steer_towards p vel target = 0 := by
      simp only [steer_towards, if_pos h0]
    refine ⟨?_, fun _ => hz, fun hne => absurd ht hne⟩
    rw [hz, Vec2.length_zero]
    exact h
  · have ht : target ≠ 0 := fun hh =>
      h0 ((Vec2.lengthSq_eq_zero_iff target).2 hh)
    by_cases hcl :
        p.max_force < (p.max_speed • target.normalize - vel).length
    · have hsne : p.max_speed • target.normalize - vel ≠ 0 :=
        Vec2.ne_zero_of_length_lt h hcl
      have hspos : 0 < (p.max_speed • target.normalize - vel).length :=
        Vec2.length_pos_of_ne_zero hsne
      have hval : steer_towards p vel target =
          Vec2.scaleTo p.max_force (p.max_speed • target.normalize - vel) := by
        simp only [steer_towards, if_neg h0, if_pos hcl]
      have hlen : (steer_towards p vel target).length = p.max_force := by
        rw [hval]
        exact Vec2.scaleTo_length hsne h
      refine ⟨hlen.le, fun hz => absurd hz ht, fun _ => ?_⟩
      refine ⟨p.max_force / (p.max_speed • target.normalize - vel).length,
        div_nonneg h hspos.le, ?_, ?_, ?_, fun _ => hlen⟩
      · rw [hval, Vec2.scaleTo]
      · intro hF
        exact div_pos hF hspos
      · intro hle
        exact absurd hcl (not_lt.2 hle)
    · have hval : steer_towards p vel target =
          p.max_speed • target.normalize - vel := by
        simp only [steer_towards, if_neg h0, if_neg hcl]
      refine ⟨?_, fun hz => absurd hz ht, fun _ => ?_⟩
      · rw [hval]
        exact not_lt.1 hcl
      · exact ⟨1, zero_le_one, by rw [hval, Vec2.one_smul_vec],
          fun _ => one_pos, fun _ => hval, fun hlt => absurd hlt hcl⟩

/-! ## Claims C7 and C10 — the boundary wrap -/

/-- Behaviour of one wrapped coordinate: `u` is the upper bound, `v` the
incoming coordinate, and the value is the coordinate `Boid.edges`
produces. -/
lemma wrap_coord_cases (u v : ℝ) (hu : 0 ≤ u) :
    (0 ≤ (if u < v then 0 else if v < 0 then u else v) ∧
      (if u < v then 0 else if v < 0 then u else v) ≤ u) ∧
    ((if u < v then 0 else if v < 0 then u else v) = 0 ∨
      (if u < v then 0 else if v < 0 then u else v) = u ∨
      (if u < v then 0 else if v < 0 then u else v) = v) ∧
    ((v = 0 ∨ v = u) → (if u < v then 0 else if v < 0 then u else v) = v) ∧
    (0 ≤ v → v ≤ u → (if u < v then 0 else if v < 0 then u else v) = v) := by
  by_cases h1 : u < v
  · rw [if_pos h1]
    refine ⟨⟨le_refl 0, hu⟩, Or.inl rfl, ?_, ?_⟩
    · rintro (hv | hv)
      · rw [hv] at h1
        exact absurd h1 (not_lt.2 hu)
      · rw [hv] at h1
        exact absurd h1 (lt_irrefl _)
    · intro _ hvu
      exact absurd h1 (not_lt.2 hvu)
  · rw [if_neg h1]
    by_cases h2 : v < 0
    · rw [if_pos h2]
      refine ⟨⟨hu, le_refl u⟩, Or.inr (Or.inl rfl), ?_, ?_⟩
      · rintro (hv | hv)
        · rw [hv] at h2
          exact absurd h2 (lt_irrefl _)
        · rw [hv]
      · intro h0v _
        exact absurd h2 (not_lt.2 h0v)
    · rw [if_neg h2]
      exact ⟨⟨not_lt.1 h2, not_lt.1 h1⟩, Or.inr (Or.inr rfl),
        fun _ => rfl, fun _ _ => rfl⟩

/-- The `x` coordinate `Boid.edges` produces. -/
lemma edges_position_x (b : Boid) :
    (edges b).position.x =
      (if WIDTH < b.position.x then 0
        else if b.position.x < 0 then WIDTH else b.position.x) := rfl

/-- The `y` coordinate `Boid.edges` produces. -/
lemma edges_position_y (b : Boid) :
    (edges b).position.y =
      (if HEIGHT < b.position.y then 0
        else if b.position.y < 0 then HEIGHT else b.position.y) := rfl

/-- **C10.** After `Boid.edges` the position lies in
`[0, WIDTH] × [0, HEIGHT]`; each coordinate is adjusted at most once (set
to `0`, set to the bound, or left unchanged), and a coordinate exactly
equal to `0` or to its bound is left unchanged. -/
theorem edges_position_in_domain (b : Boid) :
    (0 ≤ (edges b).position.x ∧ (edges b).position.x ≤ WIDTH) ∧
    (0 ≤ (edges b).position.y ∧ (edges b).position.y ≤ HEIGHT) ∧
    ((edges b).position.x = 0 ∨ (edges b).position.x = WIDTH ∨
      (edges b).position.x = b.position.x) ∧
    ((edges b).position.y = 0 ∨ (edges b).position.y = HEIGHT ∨
      (edges b).position.y = b.position.y) ∧
    ((b.position.x = 0 ∨ b.position.x = WIDTH) →
      (edges b).position.x = b.position.x) ∧
    ((b.position.y = 0 ∨ b.position.y = HEIGHT) →
      (edges b).position.y = b.position.y) := by
  have hx := wrap_coord_cases WIDTH b.position.x (by norm_num [WIDTH])
  have hy := wrap_coord_cases HEIGHT b.position.y (by norm_num [HEIGHT])
  rw [← edges_position_x] at hx
  rw [← edges_position_y] at hy
  exact ⟨hx.1, hy.1, hx.2.1, hy.2.1, hx.2.2.1, hy.2.2.1⟩

/-- Concrete instance of `edges_position_in_domain`. -/
theorem edges_position_in_domain_witness :
    (0 ≤ (edges dummyBoid).position.x ∧
      (edges dummyBoid).position.x ≤ WIDTH) ∧
    (0 ≤ (edges dummyBoid).position.y ∧
      (edges dummyBoid).position.y ≤ HEIGHT) ∧
    ((edges dummyBoid).position.x = 0 ∨
      (edges dummyBoid).position.x = WIDTH ∨
      (edges dummyBoid).position.x = dummyBoid.position.x) ∧
    ((edges dummyBoid).position.y = 0 ∨
      (edges dummyBoid).position.y = HEIGHT ∨
      (edges dummyBoid).position.y = dummyBoid.position.y) ∧
    ((dummyBoid.position.x = 0 ∨ dummyBoid.position.x = WIDTH) →
      (edges dummyBoid).position.x = dummyBoid.position.x) ∧
    ((dummyBoid.position.y = 0 ∨ dummyBoid.position.y = HEIGHT) →
      (edges dummyBoid).position.y = dummyBoid.position.y) :=
  edges_position_in_domain dummyBoid

/-- A boid beyond the right boundary carrying a nonempty trail. -/
def trailBoid : Boid := ⟨⟨1250, 400⟩, ⟨3, -1⟩, 0, [(1, 2)]⟩

/-- **C7 (counterexample).** `Boid.edges` does not change only position
coordinates: at this concrete input it also clears the trail field, while
leaving the velocity unchanged. -/
theorem edges_changes_trail_counterexample :
    (edges trailBoid).trail = [] ∧ trailBoid.trail = [(1, 2)] ∧
    (edges trailBoid).trail ≠ trailBoid.trail ∧
    (edges trailBoid).velocity = trailBoid.velocity := by
  refine ⟨?_, rfl, ?_, rfl⟩ <;>
    norm_num [edges, trailBoid, WIDTH, HEIGHT]

/-- **C7 (amended).** The wrap changes only position coordinates that lie
outside the domain (above the bound resets to `0`, below `0` resets to the
bound), leaves velocity and acceleration unchanged, and clears the trail
history exactly when some coordinate wrapped; in particular an agent
past the right boundary reappears at the left boundary with the same
vertical coordinate (when that is in the domain) and the same velocity. -/
theorem edges_wrap_characterization (b : Boid) :
    (edges b).position.x =
      (if WIDTH < b.position.x then 0
        else if b.position.x < 0 then WIDTH else b.position.x) ∧
    (edges b).position.y =
      (if HEIGHT < b.position.y then 0
        else if b.position.y < 0 then HEIGHT else b.position.y) ∧
    (0 ≤ b.position.x → b.position.x ≤ WIDTH →
      (edges b).position.x = b.position.x) ∧
    (0 ≤ b.position.y → b.position.y ≤ HEIGHT →
      (edges b).position.y = b.position.y) ∧
    (edges b).velocity = b.velocity ∧
    (edges b).acceleration = b.acceleration ∧
    (edges b).trail =
      (if WIDTH < b.position.x ∨ b.position.x < 0 ∨
          HEIGHT < b.position.y ∨ b.position.y < 0
        then [] else b.trail) ∧
    (WIDTH < b.position.x → 0 ≤ b.position.y → b.position.y ≤ HEIGHT →
      (edges b).position = ⟨0, b.position.y⟩ ∧
        (edges b).velocity = b.velocity) := by
  have hx := wrap_coord_cases WIDTH b.position.x (by norm_num [WIDTH])
  have hy := wrap_coord_cases HEIGHT b.position.y (by norm_num [HEIGHT])
  refine ⟨rfl, rfl, ?_, ?_, rfl, rfl, rfl, ?_⟩
  · intro h1 h2
    rw [edges_position_x]
    exact hx.2.2.2 h1 h2
  · intro h1 h2
    rw [edges_position_y]
    exact hy.2.2.2 h1 h2
  · intro hgt h1 h2
    refine ⟨?_, rfl⟩
    have hxv : (edges b).position.x = 0 := by
      rw [edges_position_x, if_pos hgt]
    have hyv : (edges b).position.y = b.position.y := by
      rw [edges_position_y]
      exact hy.2.2.2 h1 h2
    ext
    · rw [hxv]
    · rw [hyv]

/-- Concrete instance of `edges_wrap_characterization`. -/
theorem edges_wrap_characterization_witness :
    (edges dummyBoid).position.x =
      (if WIDTH < dummyBoid.position.x then 0
        else if dummyBoid.position.x < 0 then WIDTH
        else dummyBoid.position.x) ∧
    (edges dummyBoid).position.y =
      (if HEIGHT < dummyBoid.position.y then 0
        else if dummyBoid.position.y < 0 then HEIGHT
        else dummyBoid.position.y) ∧
    (0 ≤ dummyBoid.position.x → dummyBoid.position.x ≤ WIDTH →
      (edges dummyBoid).position.x = dummyBoid.position.x) ∧
    (0 ≤ dummyBoid.position.y → dummyBoid.position.y ≤ HEIGHT →
      (edges dummyBoid).position.y = dummyBoid.position.y) ∧
    (edges dummyBoid).velocity = dummyBoid.velocity ∧
    (edges dummyBoid).acceleration = dummyBoid.acceleration ∧
    (edges dummyBoid).trail =
      (if WIDTH < dummyBoid.position.x ∨ dummyBoid.position.x < 0 ∨
          HEIGHT < dummyBoid.position.y ∨ dummyBoid.position.y < 0
        then [] else dummyBoid.trail) ∧
    (WIDTH < dummyBoid.position.x → 0 ≤ dummyBoid.position.y →
      dummyBoid.position.y ≤ HEIGHT →
      (edges dummyBoid).position = ⟨0, dummyBoid.position.y⟩ ∧
        (edges dummyBoid).velocity = dummyBoid.velocity) :=
  edges_wrap_characterization dummyBoid

/-! ## Claim C6 — the signal buffer -/

/-- Length of a capped push. -/
lemma pushCap_length (cap : ℕ) (buf : List ℝ) (x : ℝ) :
    (pushCap cap buf x).length = min (buf.length + 1) cap := by
  simp [pushCap]
  omega

/-- Folding capped pushes never grows the buffer past the capacity. -/
lemma foldl_pushCap_le (xs : List ℝ) :
    ∀ acc : List ℝ, acc.length ≤ 256 →
      (xs.foldl (pushCap 256) acc).length ≤ 256 := by
  induction xs with
  | nil => intro acc hacc; exact hacc
  | cons x xs ih =>
      intro acc _
      rw [List.foldl_cons]
      exact ih _ (by rw [pushCap_length]; omega)

/-- **C6.** The signal buffer never exceeds its capacity of 256 samples
(for any sequence of pushes from the empty buffer), and a push at capacity
drops exactly the oldest sample, keeping the rest in FIFO order. -/
theorem signal_buffer_fifo (xs : List ℝ) (buf : List ℝ) (x : ℝ)
    (h : buf.length = 256) :
    (xs.foldl (pushCap 256) ([] : List ℝ)).length ≤ 256 ∧
    pushCap 256 buf x = buf.tail ++ [x] := by
  constructor
  · exact foldl_pushCap_le xs [] (by simp)
  · rw [pushCap]
    have h1 : (buf ++ [x]).length - 256 = 1 := by simp [h]
    rw [h1, List.drop_append_of_le_length (by omega), List.drop_one]

/-- Concrete instance of `signal_buffer_fifo` with its hypothesis
discharged. -/
theorem signal_buffer_fifo_witness :
    (List.replicate 256 (0 : ℝ)).length = 256 ∧
    (((List.replicate 300 (1 : ℝ)).foldl (pushCap 256)
        ([] : List ℝ)).length ≤ 256 ∧
      pushCap 256 (List.replicate 256 (0 : ℝ)) 0 =
        (List.replicate 256 (0 : ℝ)).tail ++ [0]) :=
  ⟨by rw [List.length_replicate],
    signal_buffer_fifo (List.replicate 300 (1 : ℝ))
      (List.replicate 256 (0 : ℝ)) 0 (by rw [List.length_replicate])⟩

/-! ## Claim C5 — the spectral classifier's decision logic -/

/-- **C5.** On a full buffer (at least 256 samples) the classifier returns
a result whose ratio is `beta_power / alpha_power` when `alpha_power > 0`
and `0` when `alpha_power = 0`, and whose state is `STRESSED` exactly when
the ratio exceeds `2.0`. -/
theorem get_brain_state_spec (buf : List ℝ) (h : 256 ≤ buf.length) :
    ∃ m : Metrics, get_brain_state buf 256 = some m ∧
      (0 < m.alpha_power → m.ratio = m.beta_power / m.alpha_power) ∧
      (m.alpha_power = 0 → m.ratio = 0) ∧
      (m.state = BrainState.STRESSED ↔ 2 < m.ratio) := by
  have hlt : ¬ buf.length < 256 := not_lt.2 h
  refine ⟨⟨if 2 < ratioVal buf 256 then BrainState.STRESSED
      else BrainState.RELAXED, alphaPower buf 256, betaPower buf 256,
      ratioVal buf 256⟩,
    by rw [get_brain_state, if_neg hlt], ?_, ?_, ?_⟩ <;> dsimp only
  · intro hpos
    rw [ratioVal, if_pos hpos]
  · intro hzero
    rw [ratioVal, if_neg (by rw [hzero]; exact lt_irrefl 0)]
  · by_cases h2 : 2 < ratioVal buf 256
    · rw [if_pos h2]
      exact iff_of_true rfl h2
    · rw [if_neg h2]
      exact iff_of_false (by decide) h2

/-- Concrete instance of `get_brain_state_spec` with its hypothesis
discharged. -/
theorem get_brain_state_spec_witness :
    256 ≤ (List.replicate 256 (0 : ℝ)).length ∧
    (∃ m : Metrics,
      get_brain_state (List.replicate 256 (0 : ℝ)) 256 = some m ∧
      (0 < m.alpha_power → m.ratio = m.beta_power / m.alpha_power) ∧
      (m.alpha_power = 0 → m.ratio = 0) ∧
      (m.state = BrainState.STRESSED ↔ 2 < m.ratio)) :=
  ⟨by rw [List.length_replicate],
    get_brain_state_spec (List.replicate 256 (0 : ℝ))
      (by rw [List.length_replicate])⟩

/-- Concrete instance of `steer_towards_spec` with its hypothesis
discharged. -/
theorem steer_towards_spec_witness :
    (0 : ℝ) ≤ defaultProfile.max_force ∧
    ((steer_towards defaultProfile 0 0).length ≤ defaultProfile.max_force ∧
      ((0 : Vec2) = 0 → steer_towards defaultProfile 0 0 = 0) ∧
      ((0 : Vec2) ≠ 0 →
        ∃ c : ℝ, 0 ≤ c ∧
          steer_towards defaultProfile 0 0 =
            c • (defaultProfile.max_speed • Vec2.normalize 0 - 0) ∧
          (0 < defaultProfile.max_force → 0 < c) ∧
          ((defaultProfile.max_speed • Vec2.normalize 0 - 0).length ≤
              defaultProfile.max_force →
            steer_towards defaultProfile 0 0 =
              defaultProfile.max_speed • Vec2.normalize 0 - 0) ∧
          (defaultProfile.max_force <
              (defaultProfile.max_speed • Vec2.normalize 0 - 0).length →
            (steer_towards defaultProfile 0 0).length =
              defaultProfile.max_force))) :=
  ⟨by norm_num [defaultProfile],
    steer_towards_spec defaultProfile 0 0 (by norm_num [defaultProfile])⟩

end
